import Mathlib

/-!
Shallow embedding of the peer-to-peer transaction ingress and relay core of
`src/mempool/mempoolcomponent_net.cpp` (SuperBitcoin): `DoesTxExist`,
`NetRequestTxData`, `NetReceiveTxData` (with its recursive orphan-resolution
loop) and `NetRequestTxInventory` (mempool dump, relay-cache expiry and the
pending-drain loop).  External collaborators (the validator
`AcceptToMemoryPool`, the UTXO cache, the orphan manager, the bloom filters,
the clock and the configuration) are oracles supplied through an environment
record; outbound calls to the network component are recorded as events.
-/

namespace SuperBitcoin

/-- A transaction as seen by this layer: content hash (`GetHash`), inputs as
`(prevout.hash, prevout.n)` pairs, number of outputs, `HasWitness`, and its
`RecursiveDynamicUsage` in bytes. -/
structure Tx where
  txid : Nat
  vin : List (Nat × Nat)
  voutCount : Nat
  hasWitness : Bool
  size : Nat
deriving DecidableEq

/-- CValidationState restricted to the fields this file reads: `IsInvalid`,
the DoS score it reports, `CorruptionPossible`, and `GetRejectCode`. -/
structure VState where
  invalid : Bool
  dos : Nat
  corruptionPossible : Bool
  rejectCode : Nat
deriving DecidableEq

/-- A freshly constructed CValidationState (valid, DoS 0, no corruption). -/
def VState.clean : VState := ⟨false, 0, false, 0⟩

/-- Outcome of the external `AcceptToMemoryPool` call: accepted (listing the
txids of transactions it evicted into `lRemovedTxn`), failed with
`fMissingInputs` set, or failed with a validation state. -/
inductive ATMPResult where
  | accepted (removed : List Nat)
  | missingInputs
  | failed (vs : VState)
deriving DecidableEq

/-- Modelled from the spec: an orphan-pool entry holds the transaction and the
peer that supplied it (`COrphanTxMgr` is external to this translation unit). -/
structure OrphanEntry where
  tx : Tx
  fromPeer : Nat
deriving DecidableEq

/-- TxMempoolInfo: the transaction, its mempool entry time `nTime`, and its
fee rate per kilobyte. -/
structure TxInfo where
  tx : Tx
  nTime : Int
  feePerK : Int
deriving DecidableEq

/-- The mutable state of the component: the recent-rejects filter (modelled
from the spec: `CRollingBloomFilter`, as an exact set) with the chain tip it
was last reset at (`hashRecentRejectsChainTip`), the mempool txid set, the
orphan pool, `mapRelay` and `vRelayExpiration`. -/
structure MpState where
  recentRejects : List Nat
  rejectsTip : Nat
  mempool : List Nat
  orphans : List OrphanEntry
  mapRelay : List (Nat × Tx)
  relayExpiration : List (Int × Nat)
deriving DecidableEq

/-- The `ExNode` fields this file reads. -/
structure PeerNode where
  nodeID : Nat
  relayTx : Bool
  whitelisted : Bool
  witnessPeer : Bool
  localWitness : Bool
deriving DecidableEq

/-- Externally observable calls issued by the component. -/
inductive Event where
  | broadcast (txid : Nat)
  | askFor (peer txid : Nat) (witnessFlag : Bool)
  | addInvKnown (peer txid : Nat) (witnessFlag : Bool)
  | misbehaveNode (peer dos : Nat)
  | sendTx (peer : Nat) (stripWitness : Bool) (txid : Nat)
  | sendReject (peer code txid : Nat)
  | sendInv (peer : Nat) (hashes : List Nat)
  | compactExtra (txid : Nat)
deriving DecidableEq

/-- External collaborators and configuration: the `-whitelistrelay` and
`-whitelistforcerelay` arguments, `-maxorphantx`, the active chain tip hash,
`AcceptToMemoryPool` as an oracle of the current mempool contents and the
candidate transaction, `HaveCoinInCache`, the orphan-eviction choice used by
`LimitOrphanTxSize`, the mempool info view, `GetTimeMicros`,
`INVENTORY_BROADCAST_MAX` and `CompareDepthAndScore`. -/
structure Env where
  whitelistrelay : Bool
  whitelistforcerelay : Bool
  maxOrphanTx : Nat
  tipHash : Nat
  atmp : List Nat → Tx → ATMPResult
  haveCoin : Nat × Nat → Bool
  pickEvict : List OrphanEntry → Nat
  mempoolInfos : List TxInfo
  nowMicros : Int
  invBroadcastMax : Nat
  cmpDepthScore : Nat → Nat → Bool

/-- Reject codes at or above this value are never sent over P2P. -/
def REJECT_INTERNAL : Nat := 256

/-- Wire maximum for one inventory message. -/
def MAX_INV_SZ : Nat := 50000

/-- Relay-cache time to live: 15 minutes in microseconds. -/
def RELAY_TTL_MICROS : Int := 15 * 60 * 1000000

/-- Insertion into the rejects filter (modelled from the spec:
`CRollingBloomFilter.insert`, as exact-set insertion). -/
def insertSet (h : Nat) (s : List Nat) : List Nat :=
  if h ∈ s then s else h :: s

/-- Combined mempool / orphan-pool membership consulted by `DoesTxExist`. -/
def MpState.known (st : MpState) (h : Nat) : Bool :=
  decide (h ∈ st.mempool ∨ ∃ o ∈ st.orphans, o.tx.txid = h)

/-- The tip-change reset of the rejects filter performed inside
`DoesTxExist`. -/
def resetRejects (env : Env) (st : MpState) : MpState :=
  { st with rejectsTip := env.tipHash, recentRejects := [] }

/-- DoesTxExist: consult the rejects filter, resetting it first when the
chain tip moved since the recorded reset tip; then mempool and orphan pool;
then the UTXO cache for outputs 0 and 1 of the txid. -/
def doesTxExist (env : Env) (st : MpState) (h : Nat) : Bool × MpState :=
  if st.rejectsTip ≠ env.tipHash then
    if (resetRejects env st).known h then (true, resetRejects env st)
    else (env.haveCoin (h, 0) || env.haveCoin (h, 1), resetRejects env st)
  else if h ∈ st.recentRejects then (true, st)
  else if st.known h then (true, st)
  else (env.haveCoin (h, 0) || env.haveCoin (h, 1), st)

/-- Relay-map lookup (`mapRelay.find`). -/
def lookupRelay (m : List (Nat × Tx)) (h : Nat) : Option Tx :=
  (m.find? (fun p => p.1 == h)).map Prod.snd

/-- Mempool info lookup (`GetMemPool().info`). -/
def mempoolInfo (env : Env) (h : Nat) : Option TxInfo :=
  env.mempoolInfos.find? (fun i => i.tx.txid == h)

/-- NetRequestTxData: serve a GETDATA for a transaction from the relay map,
else from the mempool when its entry time is within the peer's last
whole-mempool request; the reply strips witness data iff the peer did not ask
for witnesses. -/
def netRequestTxData (env : Env) (node : PeerNode) (txHash : Nat) (witness : Bool)
    (timeLastMempoolReq : Int) (st : MpState) : Bool × List Event :=
  match lookupRelay st.mapRelay txHash with
  | some tx => (true, [Event.sendTx node.nodeID (!witness) tx.txid])
  | none =>
    match mempoolInfo env txHash with
    | some info =>
      if info.nTime ≤ timeLastMempoolReq then
        (true, [Event.sendTx node.nodeID (!witness) info.tx.txid])
      else (false, [])
    | none => (false, [])

/-- Mempool update performed by a successful `AcceptToMemoryPool`: the new
txid enters, the evicted txids leave. -/
def acceptMempool (mp : List Nat) (txid : Nat) (removed : List Nat) : List Nat :=
  txid :: mp.filter (fun h => decide (h ∉ removed))

/-- Modelled from the spec: `COrphanTxMgr.AddOrphanTx` — a duplicate add is a
no-op, otherwise the entry is inserted. -/
def addOrphanTx (pool : List OrphanEntry) (tx : Tx) (peer : Nat) : List OrphanEntry :=
  if pool.any (fun o => o.tx.txid == tx.txid) then pool
  else pool ++ [⟨tx, peer⟩]

/-- Modelled from the spec: `COrphanTxMgr.EraseOrphanTx` removes the entry
with the given txid. -/
def eraseOrphanTx (pool : List OrphanEntry) (h : Nat) : List OrphanEntry :=
  pool.filter (fun o => o.tx.txid != h)

/-- Modelled from the spec: `LimitOrphanTxSize` evicts a randomly chosen
entry until the pool size is within the bound; the choice is the oracle
`pick`. -/
def limitOrphanGo (pick : List OrphanEntry → Nat) (maxN : Nat) :
    Nat → List OrphanEntry → List OrphanEntry
  | 0, pool => pool
  | fuel + 1, pool =>
    if pool.length ≤ maxN then pool
    else limitOrphanGo pick maxN fuel (pool.eraseIdx (pick pool % pool.length))

/-- Modelled from the spec: `LimitOrphanTxSize` entry point. -/
def limitOrphanTxSize (pick : List OrphanEntry → Nat) (maxN : Nat)
    (pool : List OrphanEntry) : List OrphanEntry :=
  limitOrphanGo pick maxN pool.length pool

/-- Modelled from the spec: `FindOrphanTransactionsByPrev` returns the orphans
that spend the given outpoint. -/
def findOrphansByPrev (pool : List OrphanEntry) (op : Nat × Nat) : List OrphanEntry :=
  pool.filter (fun o => o.tx.vin.contains op)

/-- Running state of the recursive orphan-resolution loop: the outpoint work
queue, the per-round `setMisbehaving`, `vEraseQueue`, the component state,
the accumulated `lRemovedTxn` txids, and the events issued so far. -/
structure LoopAcc where
  workQueue : List (Nat × Nat)
  misbehaving : List Nat
  eraseQueue : List Nat
  st : MpState
  removedAcc : List Nat
  events : List Event
deriving DecidableEq

/-- One iteration of the inner orphan loop (lines 183–236 of the source):
skip orphans from peers already in `setMisbehaving`; re-validate with a dummy
state; on accept broadcast, enqueue the orphan's outputs and mark it for
erase; on failure other than missing inputs, score the peer once, mark for
erase, and cache the hash in the rejects filter only for non-malleable
orphans. -/
def orphanRejectCache (o : OrphanEntry) (vs : VState) (acc : LoopAcc) : LoopAcc :=
  if o.tx.hasWitness = false ∧ vs.corruptionPossible = false then
    { acc with st := { acc.st with recentRejects := insertSet o.tx.txid acc.st.recentRejects } }
  else acc

def processOneOrphan (env : Env) (o : OrphanEntry) (acc : LoopAcc) : LoopAcc :=
  if o.fromPeer ∈ acc.misbehaving then acc
  else
    match env.atmp acc.st.mempool o.tx with
    | ATMPResult.accepted removed =>
      { acc with
        st := { acc.st with mempool := acceptMempool acc.st.mempool o.tx.txid removed }
        events := acc.events ++ [Event.broadcast o.tx.txid]
        workQueue := acc.workQueue ++ (List.range o.tx.voutCount).map (fun i => (o.tx.txid, i))
        eraseQueue := acc.eraseQueue ++ [o.tx.txid]
        removedAcc := acc.removedAcc ++ removed }
    | ATMPResult.missingInputs => acc
    | ATMPResult.failed vs =>
      if vs.invalid = true ∧ 0 < vs.dos then
        orphanRejectCache o vs
          { acc with
            events := acc.events ++ [Event.misbehaveNode o.fromPeer vs.dos]
            misbehaving := o.fromPeer :: acc.misbehaving
            eraseQueue := acc.eraseQueue ++ [o.tx.txid] }
      else
        orphanRejectCache o vs { acc with eraseQueue := acc.eraseQueue ++ [o.tx.txid] }

/-- The outer `while (!vWorkQueue.empty())` loop, fuel-bounded: pop the front
outpoint, process every orphan that spends it (the orphan pool is not
modified until after the loop). -/
def processWorkQueue (env : Env) (pool : List OrphanEntry) :
    Nat → LoopAcc → LoopAcc
  | 0, acc => acc
  | fuel + 1, acc =>
    match acc.workQueue with
    | [] => acc
    | op :: rest =>
      let found := findOrphansByPrev pool op
      let acc' := found.foldl (fun a o => processOneOrphan env o a) { acc with workQueue := rest }
      processWorkQueue env pool fuel acc'

/-- Result of `NetReceiveTxData`: the returned boolean, the `NF_NEWTRANSACTION`
output flag, the `nMisbehavior` output field, the final state and the events. -/
structure RecvResult where
  ret : Bool
  newTransaction : Bool
  nMisbehavior : Nat
  st : MpState
  events : List Event
deriving DecidableEq

/-- The early admission-control gate (lines 127–133): drop when the peer does
not relay transactions and is either not whitelisted or `-whitelistrelay` is
off. -/
def gateDrops (node : PeerNode) (env : Env) : Bool :=
  !node.relayTx && (!node.whitelisted || !env.whitelistrelay)

/-- The shared tail of `NetReceiveTxData` (lines 330–355): forward
`lRemovedTxn` to the compact-extra pool; if the validation state is invalid,
send a REJECT when the code is public and record the DoS score. -/
def finishRecv (node : PeerNode) (tx : Tx) (vs : VState) (removed : List Nat)
    (newTx : Bool) (st : MpState) (events : List Event) : RecvResult :=
  let events1 := events ++ removed.map Event.compactExtra
  let events2 :=
    if vs.invalid = true ∧ 0 < vs.rejectCode ∧ vs.rejectCode < REJECT_INTERNAL then
      events1 ++ [Event.sendReject node.nodeID vs.rejectCode tx.txid]
    else events1
  { ret := true
    newTransaction := newTx
    nMisbehavior := if vs.invalid = true ∧ 0 < vs.dos then vs.dos else 0
    st := st
    events := events2 }

/-- The invalid-or-already-known branch (lines 286–328): cache non-malleable
txids in the rejects filter, hand small transactions to the compact-extra
pool, and force-relay for whitelisted peers when `-whitelistforcerelay` is on
and the transaction would not be assigned a positive DoS score. -/
def forceRelayStep (env : Env) (node : PeerNode) (tx : Tx) (vs : VState)
    (p : MpState × List Event) : MpState × List Event :=
  if node.whitelisted = true ∧ env.whitelistforcerelay = true then
    if vs.invalid = false ∨ vs.dos = 0 then (p.1, p.2 ++ [Event.broadcast tx.txid])
    else p
  else p

def rejectCachePart (tx : Tx) (vs : VState) (st : MpState) (events : List Event) :
    MpState × List Event :=
  if tx.hasWitness = false ∧ vs.corruptionPossible = false then
    ({ st with recentRejects := insertSet tx.txid st.recentRejects },
     if tx.size < 100000 then events ++ [Event.compactExtra tx.txid] else events)
  else if tx.hasWitness = true ∧ tx.size < 100000 then
    (st, events ++ [Event.compactExtra tx.txid])
  else (st, events)

def knownOrInvalidBranch (env : Env) (node : PeerNode) (tx : Tx) (vs : VState)
    (st : MpState) (events : List Event) : MpState × List Event :=
  forceRelayStep env node tx vs (rejectCachePart tx vs st events)

/-- One input of the missing-inputs branch (lines 260–266): record the parent
in the peer's known-inventory shadow set and ask for it when unknown. -/
def missingStep (env : Env) (node : PeerNode) (fetchWitness : Bool)
    (p : MpState × List Event) (i : Nat × Nat) : MpState × List Event :=
  if (doesTxExist env p.1 i.1).1 = true then
    ((doesTxExist env p.1 i.1).2, p.2 ++ [Event.addInvKnown node.nodeID i.1 fetchWitness])
  else
    ((doesTxExist env p.1 i.1).2,
     p.2 ++ [Event.addInvKnown node.nodeID i.1 fetchWitness,
             Event.askFor node.nodeID i.1 fetchWitness])

/-- Parking of an orphan after the parent-request loop: add it to the pool
and enforce the `-maxorphantx` bound. -/
def parkOrphan (env : Env) (node : PeerNode) (tx : Tx) (p : MpState × List Event) :
    MpState × List Event :=
  ({ p.1 with
      orphans := limitOrphanTxSize env.pickEvict env.maxOrphanTx (addOrphanTx p.1.orphans tx node.nodeID) },
   p.2)

/-- The missing-inputs branch (lines 241–285): if any parent is already in
the rejects filter, do not park the orphan and insert its own txid into the
filter; otherwise request the parents, park the orphan and enforce the pool
bound. -/
def missingInputsBranch (env : Env) (node : PeerNode) (tx : Tx)
    (st : MpState) (events : List Event) : MpState × List Event :=
  if ∃ i ∈ tx.vin, i.1 ∈ st.recentRejects then
    ({ st with recentRejects := insertSet tx.txid st.recentRejects }, events)
  else
    parkOrphan env node tx
      (tx.vin.foldl (missingStep env node (node.localWitness && node.witnessPeer)) (st, events))

/-- The acceptance branch (lines 156–240): admit to the mempool, broadcast,
seed the work queue with the transaction's outputs, run the orphan loop, then
erase every orphan marked in `vEraseQueue`. -/
def acceptedBranch (env : Env) (node : PeerNode) (tx : Tx) (removed : List Nat)
    (st : MpState) (fuel : Nat) : RecvResult :=
  let st1 : MpState := { st with mempool := acceptMempool st.mempool tx.txid removed }
  let acc0 : LoopAcc :=
    { workQueue := (List.range tx.voutCount).map (fun i => (tx.txid, i))
      misbehaving := []
      eraseQueue := []
      st := st1
      removedAcc := removed
      events := [Event.broadcast tx.txid] }
  let acc := processWorkQueue env st1.orphans fuel acc0
  let st2 : MpState := { acc.st with orphans := acc.eraseQueue.foldl eraseOrphanTx acc.st.orphans }
  finishRecv node tx VState.clean acc.removedAcc true st2 acc.events

/-- The non-gate part of `NetReceiveTxData` once the existence check failed:
dispatch on the `AcceptToMemoryPool` outcome. -/
def recvCore (env : Env) (node : PeerNode) (tx : Tx) (st1 : MpState) (fuel : Nat) : RecvResult :=
  match env.atmp st1.mempool tx with
  | ATMPResult.accepted removed => acceptedBranch env node tx removed st1 fuel
  | ATMPResult.missingInputs =>
    finishRecv node tx VState.clean [] false
      (missingInputsBranch env node tx st1 []).1
      (missingInputsBranch env node tx st1 []).2
  | ATMPResult.failed vs =>
    finishRecv node tx vs [] false
      (knownOrInvalidBranch env node tx vs st1 []).1
      (knownOrInvalidBranch env node tx vs st1 []).2

/-- NetReceiveTxData (lines 121–356): the ingress pipeline.  The existence
check short-circuits validation; a known transaction reaches the
invalid-or-known branch with a clean state. -/
def netReceiveTxData (env : Env) (node : PeerNode) (tx : Tx) (st : MpState)
    (fuel : Nat) : RecvResult :=
  if gateDrops node env then
    { ret := true, newTransaction := false, nMisbehavior := 0, st := st, events := [] }
  else if (doesTxExist env st tx.txid).1 = true then
    finishRecv node tx VState.clean [] false
      (knownOrInvalidBranch env node tx VState.clean (doesTxExist env st tx.txid).2 []).1
      (knownOrInvalidBranch env node tx VState.clean (doesTxExist env st tx.txid).2 []).2
  else recvCore env node tx (doesTxExist env st tx.txid).2 fuel

/-- Erase one relay-map binding by key. -/
def eraseRelayKey (m : List (Nat × Tx)) (h : Nat) : List (Nat × Tx) :=
  m.filter (fun p => p.1 != h)

/-- The relay-cache expiry loop (lines 402–406): pop from the front of
`vRelayExpiration` while the front's expiry is strictly before `now`, erasing
the corresponding `mapRelay` binding for each popped entry. -/
def expireRelay (now : Int) :
    List (Int × Nat) → List (Nat × Tx) → List (Int × Nat) × List (Nat × Tx)
  | [], m => ([], m)
  | e :: rest, m =>
    if e.1 < now then expireRelay now rest (eraseRelayKey m e.2)
    else (e :: rest, m)

/-- Running state of `NetRequestTxInventory`: the caller's pending set
`toSendTxHashes`, `haveSentTxHashes`, the inventory batch `vInv`, the
component state and the events issued so far. -/
structure EgressAcc where
  toSend : List Nat
  haveSent : List Nat
  vInv : List Nat
  st : MpState
  events : List Event
deriving DecidableEq

/-- Whether the optional bloom filter rejects the transaction
(`!txFilter->IsRelevantAndUpdate(tx)` when a filter is installed). -/
def bloomFails (bloom : Option (Tx → Bool)) (t : Tx) : Bool :=
  match bloom with
  | some f => !f t
  | none => false

/-- Flush the inventory batch when it reaches the wire maximum. -/
def flushIfFull (node : PeerNode) (acc : EgressAcc) : EgressAcc :=
  if acc.vInv.length = MAX_INV_SZ then
    { acc with
      events := acc.events ++ [Event.sendInv node.nodeID acc.vInv]
      vInv := [] }
  else acc

/-- One mempool entry of the dump loop (lines 371–394): erase its hash from
the pending set, then apply the fee-rate floor and the optional bloom filter;
survivors are appended to `haveSentTxHashes` and to the inventory. -/
def dumpStep (node : PeerNode) (minFeeFilter : Int) (bloom : Option (Tx → Bool))
    (acc : EgressAcc) (info : TxInfo) : EgressAcc :=
  let acc0 : EgressAcc := { acc with toSend := acc.toSend.erase info.tx.txid }
  if info.feePerK < minFeeFilter then acc0
  else if bloomFails bloom info.tx = true then acc0
  else
    flushIfFull node
      { acc0 with
        haveSent := acc0.haveSent ++ [info.tx.txid]
        vInv := acc0.vInv ++ [info.tx.txid] }

/-- The heap comparator of the pending drain: `compFunc a b` holds when `b`
beats `a` under `CompareDepthAndScore`. -/
def compFunc (env : Env) (a b : Nat) : Bool := env.cmpDepthScore b a

/-- The element the heap pop yields: a maximum of the list under `cmp`. -/
def selectTop (cmp : Nat → Nat → Bool) (h : Nat) (rest : List Nat) : Nat :=
  rest.foldl (fun best x => if cmp best x then x else best) h

/-- Publication into the relay cache (lines 439–443): insert only when the
key is absent, and only then append an expiration-queue entry. -/
def drainRelayPublish (env : Env) (hash : Nat) (info : TxInfo) (acc : EgressAcc) : EgressAcc :=
  if lookupRelay acc.st.mapRelay hash = none then
    { acc with st :=
        { acc.st with
          mapRelay := acc.st.mapRelay ++ [(hash, info.tx)]
          relayExpiration := acc.st.relayExpiration ++ [(env.nowMicros + RELAY_TTL_MICROS, hash)] } }
  else acc

/-- The advertising part of one drain iteration (lines 437–445): record the
hash in `haveSentTxHashes`, publish into the relay cache, and append it to
the inventory batch. -/
def drainAdvertise (env : Env) (hash : Nat) (info : TxInfo) (acc : EgressAcc) : EgressAcc :=
  { acc with
    haveSent := acc.haveSent ++ [hash]
    vInv := acc.vInv ++ [hash]
    st := (drainRelayPublish env hash info acc).st }

/-- The pending-drain loop (lines 418–453), fuel-bounded: pop the top pending
hash, skip entries missing from the mempool, below the fee floor, or filtered
out; otherwise record, publish into the relay cache, and advertise, up to
`INVENTORY_BROADCAST_MAX` per round. -/
def drainLoop (env : Env) (node : PeerNode) (minFeeFilter : Int)
    (bloom : Option (Tx → Bool)) : Nat → Nat → EgressAcc → EgressAcc
  | 0, _, acc => acc
  | fuel + 1, nRelayed, acc =>
    if acc.toSend.isEmpty = true ∨ env.invBroadcastMax ≤ nRelayed then acc
    else
      match acc.toSend with
      | [] => acc
      | hd :: rest =>
        match mempoolInfo env (selectTop (compFunc env) hd rest) with
        | none => drainLoop env node minFeeFilter bloom fuel nRelayed
            { acc with toSend := (hd :: rest).erase (selectTop (compFunc env) hd rest) }
        | some info =>
          if info.feePerK < minFeeFilter then
            drainLoop env node minFeeFilter bloom fuel nRelayed
              { acc with toSend := (hd :: rest).erase (selectTop (compFunc env) hd rest) }
          else if bloomFails bloom info.tx = true then
            drainLoop env node minFeeFilter bloom fuel nRelayed
              { acc with toSend := (hd :: rest).erase (selectTop (compFunc env) hd rest) }
          else
            drainLoop env node minFeeFilter bloom fuel (nRelayed + 1)
              (flushIfFull node
                (drainAdvertise env (selectTop (compFunc env) hd rest) info
                  { acc with toSend := (hd :: rest).erase (selectTop (compFunc env) hd rest) }))

/-- The whole-mempool dump stage, active when the peer sent MEMPOOL. -/
def egressDump (env : Env) (node : PeerNode) (sendMempool : Bool)
    (minFeeFilter : Int) (bloom : Option (Tx → Bool)) (acc : EgressAcc) : EgressAcc :=
  if sendMempool = true then env.mempoolInfos.foldl (dumpStep node minFeeFilter bloom) acc
  else acc

/-- The lazy relay-cache expiry performed before the pending drain. -/
def egressExpire (env : Env) (acc : EgressAcc) : EgressAcc :=
  { acc with st :=
      { acc.st with
        relayExpiration := (expireRelay env.nowMicros acc.st.relayExpiration acc.st.mapRelay).1
        mapRelay := (expireRelay env.nowMicros acc.st.relayExpiration acc.st.mapRelay).2 } }

/-- The pending-drain stage, run only when the pending set is non-empty. -/
def egressDrain (env : Env) (node : PeerNode) (minFeeFilter : Int)
    (bloom : Option (Tx → Bool)) (acc : EgressAcc) : EgressAcc :=
  if acc.toSend.isEmpty = true then acc
  else drainLoop env node minFeeFilter bloom (egressExpire env acc).toSend.length 0
    (egressExpire env acc)

/-- The final flush of a non-empty inventory batch. -/
def egressFinalFlush (node : PeerNode) (acc : EgressAcc) : EgressAcc :=
  if acc.vInv.isEmpty = true then acc
  else { acc with events := acc.events ++ [Event.sendInv node.nodeID acc.vInv] }

/-- NetRequestTxInventory (lines 358–462): optional whole-mempool dump, then
lazy relay-cache expiry and the pending drain, then the final inventory
flush.  Returns true together with the final running state. -/
def netRequestTxInventory (env : Env) (node : PeerNode) (sendMempool : Bool)
    (minFeeFilter : Int) (bloom : Option (Tx → Bool))
    (toSend haveSent : List Nat) (st : MpState) : Bool × EgressAcc :=
  (true,
   egressFinalFlush node
     (egressDrain env node minFeeFilter bloom
       (egressDump env node sendMempool minFeeFilter bloom
         { toSend := toSend, haveSent := haveSent, vInv := [], st := st, events := [] })))

/-- The hashes carried by the inventory messages of an event list. -/
def invSent : List Event → List Nat
  | [] => []
  | Event.sendInv _ hs :: rest => hs ++ invSent rest
  | _ :: rest => invSent rest

/-- The outbound inventory of a run: flushed batches plus the still-pending
batch. -/
def outInv (acc : EgressAcc) : List Nat :=
  invSent acc.events ++ acc.vInv

/-- Recognizer for a MisbehaveNode event aimed at peer `p`. -/
def isMisbFor (p : Nat) : Event → Bool
  | Event.misbehaveNode q _ => q == p
  | _ => false

/-- How many times `MisbehaveNode` was invoked for peer `p`. -/
def misbehaveCount (p : Nat) (evs : List Event) : Nat :=
  evs.countP (isMisbFor p)

/-- A default environment for concrete runs: validation always reports
missing inputs, the UTXO cache is empty, whitelist relay is on and forced
relay off. -/
def baseEnv : Env :=
  { whitelistrelay := true
    whitelistforcerelay := false
    maxOrphanTx := 100
    tipHash := 0
    atmp := fun _ _ => ATMPResult.missingInputs
    haveCoin := fun _ => false
    pickEvict := fun _ => 0
    mempoolInfos := []
    nowMicros := 0
    invBroadcastMax := 35
    cmpDepthScore := fun _ _ => false }

/-- A plain relaying peer. -/
def node0 : PeerNode :=
  { nodeID := 1, relayTx := true, whitelisted := false
    witnessPeer := false, localWitness := false }

/-- A whitelisted relaying peer. -/
def nodeW : PeerNode :=
  { nodeID := 2, relayTx := true, whitelisted := true
    witnessPeer := false, localWitness := false }

/-- State whose rejects filter already holds txid 3, at tip 0. -/
def st0 : MpState :=
  { recentRejects := [3], rejectsTip := 0, mempool := [], orphans := []
    mapRelay := [], relayExpiration := [] }

/-- The empty state at tip 0. -/
def stEmpty : MpState :=
  { recentRejects := [], rejectsTip := 0, mempool := [], orphans := []
    mapRelay := [], relayExpiration := [] }

/-- A witness-free transaction spending outpoint (3, 0). -/
def tx0 : Tx := { txid := 7, vin := [(3, 0)], voutCount := 1, hasWitness := false, size := 80 }

/-- A witness-bearing transaction spending outpoint (3, 0). -/
def txW : Tx := { txid := 9, vin := [(3, 0)], voutCount := 1, hasWitness := true, size := 80 }

/-- A witness-free transaction with no inputs of interest. -/
def tx1 : Tx := { txid := 5, vin := [], voutCount := 1, hasWitness := false, size := 50 }

/-- A witness-bearing transaction sitting in the relay map fixture. -/
def txR : Tx := { txid := 5, vin := [], voutCount := 1, hasWitness := true, size := 10 }

/-- State whose relay map holds txid 5. -/
def stRelay : MpState :=
  { recentRejects := [], rejectsTip := 0, mempool := [], orphans := []
    mapRelay := [(5, txR)], relayExpiration := [] }

/-- Environment with whitelist force-relay switched on. -/
def envF : Env := { baseEnv with whitelistforcerelay := true }

/-- State whose mempool already holds txid 7, at tip 0. -/
def stM : MpState := { stEmpty with mempool := [7] }

/-- Provenance clause for rejects-filter insertions made by the orphan loop:
the hash belongs to a pool orphan without witness whose re-validation failed
with corruption-possible false. -/
def orphanRejClause (env : Env) (pool : List OrphanEntry) (h : Nat) : Prop :=
  ∃ o ∈ pool, o.tx.txid = h ∧ o.tx.hasWitness = false ∧
    ∃ mp vs, env.atmp mp o.tx = ATMPResult.failed vs ∧ vs.corruptionPossible = false

/-- Loop invariant for orphan fairness: a peer inside `setMisbehaving` has
been scored at most once, a peer outside it has not been scored at all. -/
def misbInv (p : Nat) (acc : LoopAcc) : Prop :=
  (p ∈ acc.misbehaving → misbehaveCount p acc.events ≤ 1) ∧
  (p ∉ acc.misbehaving → misbehaveCount p acc.events = 0)

/-- The advertised-and-settled property tracked through the egress pipeline:
the hash has been recorded in `haveSentTxHashes`, appears in the outbound
inventory, and is gone from the pending set. -/
def sentInv (h : Nat) (acc : EgressAcc) : Prop :=
  h ∈ acc.haveSent ∧ h ∈ outInv acc ∧ h ∉ acc.toSend

/-- Environment whose validator accepts everything without evictions. -/
def envA : Env := { baseEnv with atmp := fun _ _ => ATMPResult.accepted [] }

/-- A mempool info entry for tx1 at fee rate 10. -/
def info5 : TxInfo := { tx := tx1, nTime := 0, feePerK := 10 }

/-- Environment whose mempool view holds exactly info5. -/
def envD : Env := { baseEnv with mempoolInfos := [info5] }

/-- Expiration-queue fixture: one expired entry, one live entry, sorted. -/
def q4 : List (Int × Nat) := [(1, 8), (10, 9)]

/-- Relay-map fixture matching q4's expired entry. -/
def m4 : List (Nat × Tx) := [(8, txR)]

theorem mem_insertSet {a b : Nat} {s : List Nat} :
    a ∈ insertSet b s ↔ a = b ∨ a ∈ s := by
  unfold insertSet
  split <;> rename_i h
  · constructor
    · exact fun hm => Or.inr hm
    · rintro (rfl | hm)
      · exact h
      · exact hm
  · simp [List.mem_cons]

theorem doesTxExist_snd_eq (env : Env) (st : MpState) (h : Nat)
    (hTip : st.rejectsTip = env.tipHash) : (doesTxExist env st h).2 = st := by
  unfold doesTxExist
  rw [if_neg (by simp [hTip])]
  split
  · rfl
  · split
    · rfl
    · rfl

theorem doesTxExist_tip (env : Env) (st : MpState) (h : Nat) :
    (doesTxExist env st h).2.rejectsTip = env.tipHash := by
  unfold doesTxExist
  split
  · split <;> rfl
  · rename_i hne
    have hTip : st.rejectsTip = env.tipHash := by
      by_contra hc; exact hne hc
    split
    · exact hTip
    · split <;> exact hTip

theorem doesTxExist_mempool (env : Env) (st : MpState) (h : Nat) :
    (doesTxExist env st h).2.mempool = st.mempool := by
  unfold doesTxExist
  split
  · split <;> rfl
  · split
    · rfl
    · split <;> rfl

theorem doesTxExist_orphans (env : Env) (st : MpState) (h : Nat) :
    (doesTxExist env st h).2.orphans = st.orphans := by
  unfold doesTxExist
  split
  · split <;> rfl
  · split
    · rfl
    · split <;> rfl

theorem foldl_preserve {α β : Type} {P : β → Prop} {f : β → α → β} {l : List α}
    (h : ∀ b a, a ∈ l → P b → P (f b a)) : ∀ {b : β}, P b → P (l.foldl f b) := by
  induction l with
  | nil => intro b hb; exact hb
  | cons x xs ih =>
    intro b hb
    exact ih (fun b a ha => h b a (List.mem_cons_of_mem _ ha))
      (h b x (List.mem_cons_self _ _) hb)

theorem processWorkQueue_preserve {env : Env} {pool : List OrphanEntry}
    (P : LoopAcc → Prop)
    (hstep : ∀ acc o, o ∈ pool → P acc → P (processOneOrphan env o acc))
    (hwq : ∀ (acc : LoopAcc) wq, P acc → P { acc with workQueue := wq }) :
    ∀ fuel acc, P acc → P (processWorkQueue env pool fuel acc) := by
  intro fuel
  induction fuel with
  | zero => intro acc h; exact h
  | succ n ih =>
    intro acc h
    rw [processWorkQueue]
    split
    · exact h
    · rename_i op rest heq
      exact ih _ (foldl_preserve
        (fun b o ho hb => hstep b o (List.mem_of_mem_filter ho) hb)
        (hwq acc rest h))

theorem finishRecv_events (node : PeerNode) (tx : Tx) (vs : VState) (removed : List Nat)
    (newTx : Bool) (st : MpState) (evs : List Event) :
    (finishRecv node tx vs removed newTx st evs).events =
      (evs ++ removed.map Event.compactExtra) ++
      (if vs.invalid = true ∧ 0 < vs.rejectCode ∧ vs.rejectCode < REJECT_INTERNAL then
        [Event.sendReject node.nodeID vs.rejectCode tx.txid] else []) := by
  unfold finishRecv
  split
  · rfl
  · simp

theorem finishRecv_st (node : PeerNode) (tx : Tx) (vs : VState) (removed : List Nat)
    (newTx : Bool) (st : MpState) (evs : List Event) :
    (finishRecv node tx vs removed newTx st evs).st = st := rfl

theorem forceRelay_events_pos (env : Env) (node : PeerNode) (tx : Tx) (vs : VState)
    (p : MpState × List Event) (hWl : node.whitelisted = true)
    (hFr : env.whitelistforcerelay = true) (hOk : vs.invalid = false ∨ vs.dos = 0) :
    forceRelayStep env node tx vs p = (p.1, p.2 ++ [Event.broadcast tx.txid]) := by
  unfold forceRelayStep
  rw [if_pos ⟨hWl, hFr⟩, if_pos hOk]

theorem rejectCachePart_events (tx : Tx) (vs : VState) (st : MpState) (evs : List Event) :
    ∀ e ∈ (rejectCachePart tx vs st evs).2, e ∈ evs ∨ e = Event.compactExtra tx.txid := by
  intro e he
  unfold rejectCachePart at he
  split at he
  · split at he
    · rcases List.mem_append.mp he with h | h
      · exact Or.inl h
      · exact Or.inr (by simpa using h)
    · exact Or.inl he
  · split at he
    · rcases List.mem_append.mp he with h | h
      · exact Or.inl h
      · exact Or.inr (by simpa using h)
    · exact Or.inl he

/-- C7: in the invalid-or-already-known branch, a whitelisted peer with
whitelistforcerelay enabled gets the transaction broadcast whenever the
validation state is not invalid or carries DoS score zero; in particular a
transaction already known (e.g. in the mempool) is broadcast and no REJECT is
sent. -/
theorem c7_whitelist_force_relay (env : Env) (node : PeerNode) (tx : Tx)
    (st : MpState) (fuel : Nat)
    (hGate : gateDrops node env = false)
    (hWl : node.whitelisted = true)
    (hFr : env.whitelistforcerelay = true) :
    ((doesTxExist env st tx.txid).1 = true →
      Event.broadcast tx.txid ∈ (netReceiveTxData env node tx st fuel).events ∧
      ∀ p c h, Event.sendReject p c h ∉ (netReceiveTxData env node tx st fuel).events) ∧
    (∀ vs, (doesTxExist env st tx.txid).1 = false →
      env.atmp (doesTxExist env st tx.txid).2.mempool tx = ATMPResult.failed vs →
      (vs.invalid = false ∨ vs.dos = 0) →
      Event.broadcast tx.txid ∈ (netReceiveTxData env node tx st fuel).events) := by
  constructor
  · intro hEx
    have hrun : netReceiveTxData env node tx st fuel =
        finishRecv node tx VState.clean [] false
          (knownOrInvalidBranch env node tx VState.clean (doesTxExist env st tx.txid).2 []).1
          (knownOrInvalidBranch env node tx VState.clean (doesTxExist env st tx.txid).2 []).2 := by
      unfold netReceiveTxData
      rw [if_neg (by simp [hGate]), if_pos hEx]
    have hkb : knownOrInvalidBranch env node tx VState.clean (doesTxExist env st tx.txid).2 [] =
        ((rejectCachePart tx VState.clean (doesTxExist env st tx.txid).2 []).1,
         (rejectCachePart tx VState.clean (doesTxExist env st tx.txid).2 []).2 ++
           [Event.broadcast tx.txid]) := by
      unfold knownOrInvalidBranch
      exact forceRelay_events_pos env node tx VState.clean _ hWl hFr (Or.inl rfl)
    rw [hrun, finishRecv_events, hkb]
    have hcp := rejectCachePart_events tx VState.clean (doesTxExist env st tx.txid).2 []
    constructor
    · simp [VState.clean]
    · intro p c h hm
      have hm' : Event.sendReject p c h ∈
          (rejectCachePart tx VState.clean (doesTxExist env st tx.txid).2 []).2 ++
            [Event.broadcast tx.txid] := by
        simpa [VState.clean] using hm
      rcases List.mem_append.mp hm' with h1 | h1
      · rcases hcp _ h1 with h2 | h2
        · simp at h2
        · simp at h2
      · simp at h1
  · intro vs hEx hAtmp hOk
    have hrun : netReceiveTxData env node tx st fuel =
        finishRecv node tx vs [] false
          (knownOrInvalidBranch env node tx vs (doesTxExist env st tx.txid).2 []).1
          (knownOrInvalidBranch env node tx vs (doesTxExist env st tx.txid).2 []).2 := by
      unfold netReceiveTxData
      rw [if_neg (by simp [hGate]), if_neg (by simp [hEx])]
      unfold recvCore
      rw [hAtmp]
    have hkb : knownOrInvalidBranch env node tx vs (doesTxExist env st tx.txid).2 [] =
        ((rejectCachePart tx vs (doesTxExist env st tx.txid).2 []).1,
         (rejectCachePart tx vs (doesTxExist env st tx.txid).2 []).2 ++
           [Event.broadcast tx.txid]) := by
      unfold knownOrInvalidBranch
      exact forceRelay_events_pos env node tx vs _ hWl hFr hOk
    rw [hrun, finishRecv_events, hkb]
    simp

theorem c7_witness :
    (doesTxExist envF stM tx0.txid).1 = true ∧
    (Event.broadcast tx0.txid ∈ (netReceiveTxData envF nodeW tx0 stM 5).events ∧
     ∀ p c h, Event.sendReject p c h ∉ (netReceiveTxData envF nodeW tx0 stM 5).events) := by
  refine ⟨by decide, ?_⟩
  exact (c7_whitelist_force_relay envF nodeW tx0 stM 5 (by decide) rfl rfl).1 (by decide)

theorem lookup_erase_self (m : List (Nat × Tx)) (h : Nat) :
    lookupRelay (eraseRelayKey m h) h = none := by
  unfold lookupRelay eraseRelayKey
  have hf : List.find? (fun p => p.1 == h) (m.filter (fun p => p.1 != h)) = none := by
    rw [List.find?_eq_none]
    intro a ha
    have h2 := (List.mem_filter.mp ha).2
    simpa using h2
  rw [hf]
  rfl

theorem lookup_erase_none (m : List (Nat × Tx)) (h k : Nat)
    (hm : lookupRelay m h = none) : lookupRelay (eraseRelayKey m k) h = none := by
  unfold lookupRelay eraseRelayKey
  unfold lookupRelay at hm
  have hnone : List.find? (fun p => p.1 == h) m = none := by
    cases hf : List.find? (fun p => p.1 == h) m with
    | none => rfl
    | some v => rw [hf] at hm; simp at hm
  have hf : List.find? (fun p => p.1 == h) (m.filter (fun p => p.1 != k)) = none := by
    rw [List.find?_eq_none] at hnone ⊢
    intro a ha
    exact hnone a (List.mem_of_mem_filter ha)
  rw [hf]
  rfl

theorem expire_lookup_none (now : Int) :
    ∀ (q : List (Int × Nat)) (m : List (Nat × Tx)) (h : Nat),
      lookupRelay m h = none → lookupRelay (expireRelay now q m).2 h = none := by
  intro q
  induction q with
  | nil => intro m h hm; exact hm
  | cons e rest ih =>
    intro m h hm
    rw [expireRelay]
    split
    · exact ih _ _ (lookup_erase_none m h e.2 hm)
    · exact hm

theorem expire_surviving_ge (now : Int) :
    ∀ (q : List (Int × Nat)) (m : List (Nat × Tx)),
      q.Pairwise (fun a b => a.1 ≤ b.1) →
      ∀ e ∈ (expireRelay now q m).1, now ≤ e.1 := by
  intro q
  induction q with
  | nil => intro m _ e he; simp [expireRelay] at he
  | cons x rest ih =>
    intro m hs e he
    rw [expireRelay] at he
    split at he
    · exact ih _ (List.pairwise_cons.mp hs).2 e he
    · rename_i hnl
      rcases List.mem_cons.mp he with rfl | hm
      · exact le_of_not_lt hnl
      · exact (le_of_not_lt hnl).trans ((List.pairwise_cons.mp hs).1 e hm)

theorem expire_removed_lookup (now : Int) :
    ∀ (q : List (Int × Nat)) (m : List (Nat × Tx)),
      q.Pairwise (fun a b => a.1 ≤ b.1) →
      ∀ e ∈ q, e.1 < now → lookupRelay (expireRelay now q m).2 e.2 = none := by
  intro q
  induction q with
  | nil => intro m _ e he; simp at he
  | cons x rest ih =>
    intro m hs e he hlt
    rw [expireRelay]
    split
    · rcases List.mem_cons.mp he with rfl | hm
      · exact expire_lookup_none now rest _ e.2 (lookup_erase_self m e.2)
      · exact ih _ (List.pairwise_cons.mp hs).2 e hm hlt
    · rename_i hnl
      rcases List.mem_cons.mp he with rfl | hm
      · exact absurd hlt hnl
      · have hx := (List.pairwise_cons.mp hs).1 e hm
        exact absurd (lt_of_le_of_lt ((le_of_not_lt hnl).trans hx) hlt) (lt_irrefl now)

/-- C4 counterexample: an entry whose expiry equals `now` (so expiry ≤ now)
survives the expire step in both the queue and the map, because the loop
pops only entries with expiry strictly below `now`. -/
theorem c4_counterexample :
    (5 : Int) ≤ 5 ∧
    (expireRelay 5 [(5, 1)] [(1, txR)]).1 = [(5, 1)] ∧
    (expireRelay 5 [(5, 1)] [(1, txR)]).2 = [(1, txR)] := by decide

/-- C4 amended: after the expire step on a queue sorted by expiry, every
entry whose expiry is strictly before `now` has been removed from the queue
and its relay-map binding is gone, and every surviving queue entry has
expiry ≥ `now` (insertion time + TTL ≥ now, not > now). -/
theorem c4_expire_amended (now : Int) (q : List (Int × Nat)) (m : List (Nat × Tx))
    (hSorted : q.Pairwise (fun a b => a.1 ≤ b.1)) :
    (∀ e ∈ (expireRelay now q m).1, now ≤ e.1) ∧
    (∀ e ∈ q, e.1 < now →
      e ∉ (expireRelay now q m).1 ∧
      lookupRelay (expireRelay now q m).2 e.2 = none) := by
  refine ⟨expire_surviving_ge now q m hSorted, ?_⟩
  intro e he hlt
  constructor
  · intro hmem
    exact absurd (lt_of_le_of_lt (expire_surviving_ge now q m hSorted e hmem) hlt)
      (lt_irrefl now)
  · exact expire_removed_lookup now q m hSorted e he hlt

theorem c4_witness :
    q4.Pairwise (fun a b => a.1 ≤ b.1) ∧
    ((∀ e ∈ (expireRelay 5 q4 m4).1, (5 : Int) ≤ e.1) ∧
     (∀ e ∈ q4, e.1 < 5 →
       e ∉ (expireRelay 5 q4 m4).1 ∧
       lookupRelay (expireRelay 5 q4 m4).2 e.2 = none)) :=
  ⟨by decide, c4_expire_amended 5 q4 m4 (by decide)⟩

theorem misbehaveCount_append (p : Nat) (a b : List Event) :
    misbehaveCount p (a ++ b) = misbehaveCount p a + misbehaveCount p b := by
  simp [misbehaveCount, List.countP_append]

theorem isMisbFor_broadcast (p t : Nat) : isMisbFor p (Event.broadcast t) = false := rfl

theorem isMisbFor_addInvKnown (p a b : Nat) (w : Bool) :
    isMisbFor p (Event.addInvKnown a b w) = false := rfl

theorem isMisbFor_askFor (p a b : Nat) (w : Bool) :
    isMisbFor p (Event.askFor a b w) = false := rfl

theorem misbehaveCount_single_not (p : Nat) (e : Event) (h : isMisbFor p e = false) :
    misbehaveCount p [e] = 0 := by
  simp [misbehaveCount, List.countP_cons, h]

theorem misbehaveCount_append_nonmisb (p : Nat) (a : List Event) (e : Event)
    (h : isMisbFor p e = false) :
    misbehaveCount p (a ++ [e]) = misbehaveCount p a := by
  rw [misbehaveCount_append, misbehaveCount_single_not p e h]
  omega

theorem misbehaveCount_pair_nonmisb (p : Nat) (a : List Event) (e1 e2 : Event)
    (h1 : isMisbFor p e1 = false) (h2 : isMisbFor p e2 = false) :
    misbehaveCount p (a ++ [e1, e2]) = misbehaveCount p a := by
  rw [misbehaveCount_append]
  simp [misbehaveCount, List.countP_cons, h1, h2]

theorem orphanRejectCache_misbehaving (o : OrphanEntry) (vs : VState) (acc : LoopAcc) :
    (orphanRejectCache o vs acc).misbehaving = acc.misbehaving := by
  unfold orphanRejectCache
  split <;> rfl

theorem orphanRejectCache_events (o : OrphanEntry) (vs : VState) (acc : LoopAcc) :
    (orphanRejectCache o vs acc).events = acc.events := by
  unfold orphanRejectCache
  split <;> rfl

theorem misbInv_orphanRejectCache (p : Nat) (o : OrphanEntry) (vs : VState)
    (acc : LoopAcc) (h : misbInv p acc) : misbInv p (orphanRejectCache o vs acc) := by
  unfold misbInv at *
  rw [orphanRejectCache_misbehaving, orphanRejectCache_events]
  exact h

theorem processOneOrphan_misbInv (env : Env) (o : OrphanEntry) (acc : LoopAcc) (p : Nat)
    (h : misbInv p acc) : misbInv p (processOneOrphan env o acc) := by
  unfold processOneOrphan
  split
  · exact h
  · rename_i hguard
    split
    · rename_i removed heq
      constructor
      · intro hp
        rw [misbehaveCount_append_nonmisb p acc.events _ (isMisbFor_broadcast p o.tx.txid)]
        exact h.1 hp
      · intro hp
        rw [misbehaveCount_append_nonmisb p acc.events _ (isMisbFor_broadcast p o.tx.txid)]
        exact h.2 hp
    · exact h
    · rename_i vs heq
      split
      · refine misbInv_orphanRejectCache p o vs _ ?_
        by_cases hpo : p = o.fromPeer
        · subst hpo
          constructor
          · intro _
            rw [misbehaveCount_append]
            have h0 : misbehaveCount o.fromPeer acc.events = 0 := h.2 hguard
            rw [h0]
            simp [misbehaveCount, List.countP_cons, isMisbFor]
          · intro hp
            exact absurd (List.mem_cons_self _ _) hp
        · have hn : isMisbFor p (Event.misbehaveNode o.fromPeer vs.dos) = false := by
            simp [isMisbFor]
            exact fun hc => hpo hc.symm
          constructor
          · intro hp
            rw [misbehaveCount_append_nonmisb p acc.events _ hn]
            rcases List.mem_cons.mp hp with hc | hc
            · exact absurd hc hpo
            · exact h.1 hc
          · intro hp
            rw [misbehaveCount_append_nonmisb p acc.events _ hn]
            exact h.2 (fun hc => hp (List.mem_cons_of_mem _ hc))
      · exact misbInv_orphanRejectCache p o vs _ h

theorem misbInv_processWorkQueue (env : Env) (pool : List OrphanEntry) (p : Nat)
    (fuel : Nat) (acc : LoopAcc) (h : misbInv p acc) :
    misbInv p (processWorkQueue env pool fuel acc) :=
  processWorkQueue_preserve (misbInv p)
    (fun acc o _ hacc => processOneOrphan_misbInv env o acc p hacc)
    (fun _ _ hacc => hacc)
    fuel acc h

theorem rejectCachePart_no_misb (tx : Tx) (vs : VState) (st : MpState) (p : Nat) :
    misbehaveCount p (rejectCachePart tx vs st []).2 = 0 := by
  unfold misbehaveCount
  rw [List.countP_eq_zero]
  intro e he
  rcases rejectCachePart_events tx vs st [] e he with h | rfl
  · simp at h
  · simp [isMisbFor]

theorem knownOrInvalid_no_misb (env : Env) (node : PeerNode) (tx : Tx) (vs : VState)
    (st : MpState) (p : Nat) :
    misbehaveCount p (knownOrInvalidBranch env node tx vs st []).2 = 0 := by
  unfold knownOrInvalidBranch forceRelayStep
  split
  · split
    · rw [misbehaveCount_append_nonmisb p _ _ (isMisbFor_broadcast p tx.txid)]
      exact rejectCachePart_no_misb tx vs st p
    · exact rejectCachePart_no_misb tx vs st p
  · exact rejectCachePart_no_misb tx vs st p

theorem missingFold_no_misb (env : Env) (node : PeerNode) (fw : Bool) (p : Nat) :
    ∀ (l : List (Nat × Nat)) (st : MpState) (evs : List Event),
      misbehaveCount p evs = 0 →
      misbehaveCount p (l.foldl (missingStep env node fw) (st, evs)).2 = 0 := by
  intro l
  induction l with
  | nil => intro st evs h; exact h
  | cons i rest ih =>
    intro st evs h
    rw [List.foldl_cons]
    unfold missingStep
    split
    · exact ih _ _
        (by rw [misbehaveCount_append_nonmisb p _ _ (isMisbFor_addInvKnown p node.nodeID i.1 fw)]
            exact h)
    · exact ih _ _
        (by rw [misbehaveCount_pair_nonmisb p _ _ _ (isMisbFor_addInvKnown p node.nodeID i.1 fw)
              (isMisbFor_askFor p node.nodeID i.1 fw)]
            exact h)

theorem missing_no_misb (env : Env) (node : PeerNode) (tx : Tx) (st : MpState) (p : Nat) :
    misbehaveCount p (missingInputsBranch env node tx st []).2 = 0 := by
  unfold missingInputsBranch parkOrphan
  split
  · rfl
  · exact missingFold_no_misb env node _ p tx.vin st [] rfl

theorem finishRecv_misb_count (node : PeerNode) (tx : Tx) (vs : VState)
    (removed : List Nat) (newTx : Bool) (st : MpState) (evs : List Event) (p : Nat) :
    misbehaveCount p (finishRecv node tx vs removed newTx st evs).events =
      misbehaveCount p evs := by
  rw [finishRecv_events, misbehaveCount_append, misbehaveCount_append]
  have h1 : misbehaveCount p (removed.map Event.compactExtra) = 0 := by
    unfold misbehaveCount
    rw [List.countP_eq_zero]
    intro e he
    rcases List.mem_map.mp he with ⟨x, _, rfl⟩
    simp [isMisbFor]
  have h2 : misbehaveCount p
      (if vs.invalid = true ∧ 0 < vs.rejectCode ∧ vs.rejectCode < REJECT_INTERNAL then
        [Event.sendReject node.nodeID vs.rejectCode tx.txid] else []) = 0 := by
    split
    · simp [misbehaveCount, List.countP_cons, isMisbFor]
    · rfl
  rw [h1, h2]
  omega

theorem loop_misb_le_one (env : Env) (pool : List OrphanEntry) (p fuel : Nat)
    (acc : LoopAcc) (h : misbInv p acc) :
    misbehaveCount p (processWorkQueue env pool fuel acc).events ≤ 1 := by
  have hinv := misbInv_processWorkQueue env pool p fuel acc h
  by_cases hp : p ∈ (processWorkQueue env pool fuel acc).misbehaving
  · exact hinv.1 hp
  · rw [hinv.2 hp]
    omega

theorem forceRelayStep_fst (env : Env) (node : PeerNode) (tx : Tx) (vs : VState)
    (p : MpState × List Event) : (forceRelayStep env node tx vs p).1 = p.1 := by
  unfold forceRelayStep
  split
  · split <;> rfl
  · rfl

theorem missingFold_st (env : Env) (node : PeerNode) (fw : Bool) :
    ∀ (l : List (Nat × Nat)) (st : MpState) (evs : List Event),
      st.rejectsTip = env.tipHash →
      (l.foldl (missingStep env node fw) (st, evs)).1 = st := by
  intro l
  induction l with
  | nil => intro st evs _; rfl
  | cons i rest ih =>
    intro st evs h
    rw [List.foldl_cons]
    unfold missingStep
    split
    · rw [doesTxExist_snd_eq env st i.1 h]
      exact ih st _ h
    · rw [doesTxExist_snd_eq env st i.1 h]
      exact ih st _ h

theorem processOneOrphan_rej (env : Env) (pool : List OrphanEntry) (R0 : List Nat)
    (o : OrphanEntry) (ho : o ∈ pool) (acc : LoopAcc)
    (h : ∀ x ∈ acc.st.recentRejects, x ∈ R0 ∨ orphanRejClause env pool x) :
    ∀ x ∈ (processOneOrphan env o acc).st.recentRejects,
      x ∈ R0 ∨ orphanRejClause env pool x := by
  unfold processOneOrphan
  split
  · exact h
  · split
    · exact h
    · exact h
    · rename_i vs heq
      split
      · unfold orphanRejectCache
        split
        · rename_i hw
          intro x hx
          rcases mem_insertSet.mp hx with rfl | hxs
          · exact Or.inr ⟨o, ho, rfl, hw.1, acc.st.mempool, vs, heq, hw.2⟩
          · exact h x hxs
        · exact h
      · unfold orphanRejectCache
        split
        · rename_i hw
          intro x hx
          rcases mem_insertSet.mp hx with rfl | hxs
          · exact Or.inr ⟨o, ho, rfl, hw.1, acc.st.mempool, vs, heq, hw.2⟩
          · exact h x hxs
        · exact h

theorem loop_rej (env : Env) (pool : List OrphanEntry) (R0 : List Nat)
    (fuel : Nat) (acc : LoopAcc)
    (h : ∀ x ∈ acc.st.recentRejects, x ∈ R0 ∨ orphanRejClause env pool x) :
    ∀ x ∈ (processWorkQueue env pool fuel acc).st.recentRejects,
      x ∈ R0 ∨ orphanRejClause env pool x :=
  processWorkQueue_preserve
    (fun a => ∀ x ∈ a.st.recentRejects, x ∈ R0 ∨ orphanRejClause env pool x)
    (fun a o ho ha => processOneOrphan_rej env pool R0 o ho a ha)
    (fun _ _ ha => ha)
    fuel acc h

/-- C3: within a single ingress call, the external MisbehaveNode operation is
invoked for any given peer at most once — after the first DoS-invalid orphan
from a peer, further orphans from that peer are skipped. -/
theorem c3_misbehave_at_most_once (env : Env) (node : PeerNode) (tx : Tx)
    (st : MpState) (fuel : Nat) (p : Nat) :
    misbehaveCount p (netReceiveTxData env node tx st fuel).events ≤ 1 := by
  unfold netReceiveTxData
  split
  · simp [misbehaveCount]
  · split
    · rw [finishRecv_misb_count, knownOrInvalid_no_misb]
      omega
    · unfold recvCore
      split
      · rename_i removed heq
        unfold acceptedBranch
        rw [finishRecv_misb_count]
        apply loop_misb_le_one
        constructor
        · intro hp
          simp at hp
        · intro _
          exact misbehaveCount_single_not p _ (isMisbFor_broadcast p tx.txid)
      · rw [finishRecv_misb_count, missing_no_misb]
        omega
      · rw [finishRecv_misb_count, knownOrInvalid_no_misb]
        omega

/-- C2 counterexample: a witness-bearing transaction whose validation reports
missing inputs and whose parent is already rejected gets its own txid
inserted into the recent-rejects filter by the rejected-parents path, which
performs no witness or corruption check. -/
theorem c2_counterexample :
    txW.hasWitness = true ∧
    txW.txid ∉ st0.recentRejects ∧
    txW.txid ∈ (netReceiveTxData baseEnv node0 txW st0 5).st.recentRejects := by
  decide

/-- C2 amended: a txid inserted into the recent-rejects filter during an
ingress call is either the received transaction's txid where the transaction
has no witness and the governing validation state (clean when the transaction
was already known, the failure state otherwise) has corruption-possible
false; or — with no witness or corruption check at all — the received
transaction's txid on the missing-inputs path when some parent is already in
the filter; or the txid of a witness-free pool orphan whose re-validation
failed with corruption-possible false. -/
theorem c2_rejects_insert_amended (env : Env) (node : PeerNode) (tx : Tx)
    (st : MpState) (fuel : Nat)
    (hTip : st.rejectsTip = env.tipHash) :
    ∀ h ∈ (netReceiveTxData env node tx st fuel).st.recentRejects,
      h ∈ st.recentRejects ∨
      (h = tx.txid ∧ tx.hasWitness = false ∧
        ((doesTxExist env st tx.txid).1 = true ∨
         ∃ vs, env.atmp st.mempool tx = ATMPResult.failed vs ∧
           vs.corruptionPossible = false)) ∨
      (h = tx.txid ∧ env.atmp st.mempool tx = ATMPResult.missingInputs ∧
        ∃ i ∈ tx.vin, i.1 ∈ st.recentRejects) ∨
      orphanRejClause env st.orphans h := by
  intro h hmem
  have hsnd : (doesTxExist env st tx.txid).2 = st := doesTxExist_snd_eq env st tx.txid hTip
  unfold netReceiveTxData at hmem
  split at hmem
  · exact Or.inl hmem
  · split at hmem
    · rename_i hEx
      rw [hsnd, finishRecv_st] at hmem
      unfold knownOrInvalidBranch at hmem
      rw [forceRelayStep_fst] at hmem
      unfold rejectCachePart at hmem
      split at hmem
      · rename_i hw
        rcases mem_insertSet.mp hmem with rfl | hxs
        · exact Or.inr (Or.inl ⟨rfl, hw.1, Or.inl hEx⟩)
        · exact Or.inl hxs
      · split at hmem
        · exact Or.inl hmem
        · exact Or.inl hmem
    · unfold recvCore at hmem
      rw [hsnd] at hmem
      split at hmem
      · rename_i removed heq
        unfold acceptedBranch at hmem
        rw [finishRecv_st] at hmem
        rcases loop_rej env _ st.recentRejects fuel _ (fun x hx => Or.inl hx) h hmem with
          hin | hcl
        · exact Or.inl hin
        · exact Or.inr (Or.inr (Or.inr hcl))
      · rename_i heq
        rw [finishRecv_st] at hmem
        unfold missingInputsBranch at hmem
        split at hmem
        · rename_i hex
          rcases mem_insertSet.mp hmem with rfl | hxs
          · exact Or.inr (Or.inr (Or.inl ⟨rfl, heq, hex⟩))
          · exact Or.inl hxs
        · unfold parkOrphan at hmem
          rw [missingFold_st env node _ tx.vin st [] hTip] at hmem
          exact Or.inl hmem
      · rename_i vs heq
        rw [finishRecv_st] at hmem
        unfold knownOrInvalidBranch at hmem
        rw [forceRelayStep_fst] at hmem
        unfold rejectCachePart at hmem
        split at hmem
        · rename_i hw
          rcases mem_insertSet.mp hmem with rfl | hxs
          · exact Or.inr (Or.inl ⟨rfl, hw.1, Or.inr ⟨vs, heq, hw.2⟩⟩)
          · exact Or.inl hxs
        · split at hmem
          · exact Or.inl hmem
          · exact Or.inl hmem

theorem c2_witness :
    st0.rejectsTip = baseEnv.tipHash ∧
    (3 ∈ st0.recentRejects ∨
      (3 = tx0.txid ∧ tx0.hasWitness = false ∧
        ((doesTxExist baseEnv st0 tx0.txid).1 = true ∨
         ∃ vs, baseEnv.atmp st0.mempool tx0 = ATMPResult.failed vs ∧
           vs.corruptionPossible = false)) ∨
      (3 = tx0.txid ∧ baseEnv.atmp st0.mempool tx0 = ATMPResult.missingInputs ∧
        ∃ i ∈ tx0.vin, i.1 ∈ st0.recentRejects) ∨
      orphanRejClause baseEnv st0.orphans 3) := by
  refine ⟨rfl, ?_⟩
  exact c2_rejects_insert_amended baseEnv node0 tx0 st0 5 rfl 3 (by decide)

theorem rejectCachePart_fst_tip (tx : Tx) (vs : VState) (st : MpState) (evs : List Event) :
    (rejectCachePart tx vs st evs).1.rejectsTip = st.rejectsTip := by
  unfold rejectCachePart
  split
  · rfl
  · split <;> rfl

theorem rejectCachePart_fst_mempool (tx : Tx) (vs : VState) (st : MpState) (evs : List Event) :
    (rejectCachePart tx vs st evs).1.mempool = st.mempool := by
  unfold rejectCachePart
  split
  · rfl
  · split <;> rfl

theorem rejectCachePart_fst_orphans (tx : Tx) (vs : VState) (st : MpState) (evs : List Event) :
    (rejectCachePart tx vs st evs).1.orphans = st.orphans := by
  unfold rejectCachePart
  split
  · rfl
  · split <;> rfl

theorem rejectCachePart_fst_rejects (tx : Tx) (vs : VState) (st : MpState) (evs : List Event) :
    (rejectCachePart tx vs st evs).1.recentRejects = st.recentRejects ∨
    (rejectCachePart tx vs st evs).1.recentRejects = insertSet tx.txid st.recentRejects := by
  unfold rejectCachePart
  split
  · exact Or.inr rfl
  · split
    · exact Or.inl rfl
    · exact Or.inl rfl

theorem processOneOrphan_tip (env : Env) (o : OrphanEntry) (acc : LoopAcc) :
    (processOneOrphan env o acc).st.rejectsTip = acc.st.rejectsTip := by
  unfold processOneOrphan orphanRejectCache
  split
  · rfl
  · split
    · rfl
    · rfl
    · split
      · split <;> rfl
      · split <;> rfl

theorem recv_tip (env : Env) (node : PeerNode) (tx : Tx) (st : MpState) (fuel : Nat)
    (hGate : gateDrops node env = false) :
    (netReceiveTxData env node tx st fuel).st.rejectsTip = env.tipHash := by
  unfold netReceiveTxData
  rw [if_neg (by simp [hGate])]
  split
  · rw [finishRecv_st]
    unfold knownOrInvalidBranch
    rw [forceRelayStep_fst, rejectCachePart_fst_tip]
    exact doesTxExist_tip env st tx.txid
  · unfold recvCore
    split
    · rename_i removed heq
      unfold acceptedBranch
      rw [finishRecv_st]
      exact processWorkQueue_preserve (fun a => a.st.rejectsTip = env.tipHash)
        (fun a o _ ha => by
          show (processOneOrphan env o a).st.rejectsTip = env.tipHash
          rw [processOneOrphan_tip]
          exact ha)
        (fun _ _ ha => ha)
        fuel _ (doesTxExist_tip env st tx.txid)
    · rw [finishRecv_st]
      unfold missingInputsBranch parkOrphan
      split
      · exact doesTxExist_tip env st tx.txid
      · rw [missingFold_st env node _ tx.vin _ [] (doesTxExist_tip env st tx.txid)]
        exact doesTxExist_tip env st tx.txid
    · rename_i vs heq
      rw [finishRecv_st]
      unfold knownOrInvalidBranch
      rw [forceRelayStep_fst, rejectCachePart_fst_tip]
      exact doesTxExist_tip env st tx.txid

/-- C5 counterexample: a witness-free transaction that is accepted on the
first call gets its own txid inserted into the recent-rejects filter by the
second, identical call (which short-circuits into the already-known branch),
so the rejects filter differs between calling once and calling twice. -/
theorem c5_counterexample :
    (netReceiveTxData envA node0 tx1 stEmpty 3).st.recentRejects = [] ∧
    (netReceiveTxData envA node0 tx1
        (netReceiveTxData envA node0 tx1 stEmpty 3).st 3).st.recentRejects = [5] := by
  decide

/-- C5 amended: when the transaction is still known to the existence oracle
after the first call (as on the acceptance, surviving-orphan, rejected-parents
and non-malleable-rejection paths), the second identical call leaves the
mempool and orphan pool exactly as the first call did, and the recent-rejects
filter the same except that the transaction's own txid may additionally have
been inserted. -/
theorem c5_idempotent_amended (env : Env) (node : PeerNode) (tx : Tx)
    (st : MpState) (fuel : Nat)
    (hEx : (doesTxExist env (netReceiveTxData env node tx st fuel).st tx.txid).1 = true) :
    (netReceiveTxData env node tx (netReceiveTxData env node tx st fuel).st fuel).st.mempool =
      (netReceiveTxData env node tx st fuel).st.mempool ∧
    (netReceiveTxData env node tx (netReceiveTxData env node tx st fuel).st fuel).st.orphans =
      (netReceiveTxData env node tx st fuel).st.orphans ∧
    ((netReceiveTxData env node tx (netReceiveTxData env node tx st fuel).st fuel).st.recentRejects =
        (netReceiveTxData env node tx st fuel).st.recentRejects ∨
     (netReceiveTxData env node tx (netReceiveTxData env node tx st fuel).st fuel).st.recentRejects =
        insertSet tx.txid (netReceiveTxData env node tx st fuel).st.recentRejects) := by
  by_cases hGate : gateDrops node env = true
  · simp [netReceiveTxData, hGate]
  · have hGate' : gateDrops node env = false := by
      cases hgb : gateDrops node env
      · rfl
      · exact absurd hgb hGate
    have htip := recv_tip env node tx st fuel hGate'
    set s1 : MpState := (netReceiveTxData env node tx st fuel).st with hs1
    unfold netReceiveTxData
    rw [if_neg (by simp [hGate']), doesTxExist_snd_eq env s1 tx.txid htip, if_pos hEx,
      finishRecv_st]
    unfold knownOrInvalidBranch
    rw [forceRelayStep_fst]
    exact ⟨rejectCachePart_fst_mempool tx VState.clean s1 [],
      rejectCachePart_fst_orphans tx VState.clean s1 [],
      rejectCachePart_fst_rejects tx VState.clean s1 []⟩

theorem c5_witness :
    (doesTxExist envA (netReceiveTxData envA node0 tx1 stEmpty 3).st tx1.txid).1 = true ∧
    ((netReceiveTxData envA node0 tx1 (netReceiveTxData envA node0 tx1 stEmpty 3).st 3).st.mempool =
       (netReceiveTxData envA node0 tx1 stEmpty 3).st.mempool ∧
     (netReceiveTxData envA node0 tx1 (netReceiveTxData envA node0 tx1 stEmpty 3).st 3).st.orphans =
       (netReceiveTxData envA node0 tx1 stEmpty 3).st.orphans ∧
     ((netReceiveTxData envA node0 tx1 (netReceiveTxData envA node0 tx1 stEmpty 3).st 3).st.recentRejects =
        (netReceiveTxData envA node0 tx1 stEmpty 3).st.recentRejects ∨
      (netReceiveTxData envA node0 tx1 (netReceiveTxData envA node0 tx1 stEmpty 3).st 3).st.recentRejects =
        insertSet tx1.txid (netReceiveTxData envA node0 tx1 stEmpty 3).st.recentRejects)) :=
  ⟨by decide, c5_idempotent_amended envA node0 tx1 stEmpty 3 (by decide)⟩

theorem invSent_append (a b : List Event) : invSent (a ++ b) = invSent a ++ invSent b := by
  induction a with
  | nil => rfl
  | cons e rest ih => cases e <;> simp [invSent, ih]

theorem flushIfFull_haveSent (node : PeerNode) (acc : EgressAcc) :
    (flushIfFull node acc).haveSent = acc.haveSent := by
  unfold flushIfFull
  split <;> rfl

theorem flushIfFull_toSend (node : PeerNode) (acc : EgressAcc) :
    (flushIfFull node acc).toSend = acc.toSend := by
  unfold flushIfFull
  split <;> rfl

theorem outInv_flushIfFull (node : PeerNode) (acc : EgressAcc) :
    outInv (flushIfFull node acc) = outInv acc := by
  unfold flushIfFull outInv
  split
  · rw [invSent_append]
    simp [invSent]
  · rfl

theorem dumpStep_toSend (node : PeerNode) (mf : Int) (bloom : Option (Tx → Bool))
    (acc : EgressAcc) (info : TxInfo) :
    (dumpStep node mf bloom acc info).toSend = acc.toSend.erase info.tx.txid := by
  unfold dumpStep
  split
  · rfl
  · split
    · rfl
    · rw [flushIfFull_toSend]

theorem sentInv_dumpStep (node : PeerNode) (mf : Int) (bloom : Option (Tx → Bool))
    (h : Nat) (acc : EgressAcc) (info : TxInfo) (hp : sentInv h acc) :
    sentInv h (dumpStep node mf bloom acc info) := by
  obtain ⟨h1, h2, h3⟩ := hp
  have h3' : h ∉ acc.toSend.erase info.tx.txid := fun hc => h3 (List.mem_of_mem_erase hc)
  unfold dumpStep
  split
  · exact ⟨h1, h2, h3'⟩
  · split
    · exact ⟨h1, h2, h3'⟩
    · refine ⟨?_, ?_, ?_⟩
      · rw [flushIfFull_haveSent]
        exact List.mem_append_left _ h1
      · rw [outInv_flushIfFull]
        unfold outInv at h2 ⊢
        rcases List.mem_append.mp h2 with hl | hr
        · exact List.mem_append_left _ hl
        · exact List.mem_append_right _ (List.mem_append_left _ hr)
      · rw [flushIfFull_toSend]
        exact h3'

theorem sentInv_dumpStep_est (node : PeerNode) (mf : Int) (bloom : Option (Tx → Bool))
    (acc : EgressAcc) (info : TxInfo)
    (hfee : ¬ info.feePerK < mf) (hbloom : bloomFails bloom info.tx = false)
    (hnod : acc.toSend.Nodup) :
    sentInv info.tx.txid (dumpStep node mf bloom acc info) := by
  unfold dumpStep
  rw [if_neg hfee, if_neg (by simp [hbloom])]
  refine ⟨?_, ?_, ?_⟩
  · rw [flushIfFull_haveSent]
    exact List.mem_append_right _ (List.mem_singleton.mpr rfl)
  · rw [outInv_flushIfFull]
    unfold outInv
    exact List.mem_append_right _ (List.mem_append_right _ (List.mem_singleton.mpr rfl))
  · rw [flushIfFull_toSend]
    intro hc
    exact absurd ((hnod.mem_erase_iff).mp hc).1 (by simp)

theorem dumpFold_nodup (node : PeerNode) (mf : Int) (bloom : Option (Tx → Bool))
    (l : List TxInfo) :
    ∀ acc : EgressAcc, acc.toSend.Nodup →
      (l.foldl (dumpStep node mf bloom) acc).toSend.Nodup := by
  induction l with
  | nil => exact fun acc h => h
  | cons i rest ih =>
    intro acc h
    rw [List.foldl_cons]
    refine ih _ ?_
    rw [dumpStep_toSend]
    exact h.erase _

theorem sentInv_flushIfFull (node : PeerNode) (acc : EgressAcc) (h : Nat)
    (hp : sentInv h acc) : sentInv h (flushIfFull node acc) := by
  obtain ⟨h1, h2, h3⟩ := hp
  refine ⟨?_, ?_, ?_⟩
  · rw [flushIfFull_haveSent]
    exact h1
  · rw [outInv_flushIfFull]
    exact h2
  · rw [flushIfFull_toSend]
    exact h3

theorem sentInv_drainAdvertise (env : Env) (hash : Nat) (info : TxInfo) (h : Nat)
    (acc : EgressAcc) (hp : sentInv h acc) : sentInv h (drainAdvertise env hash info acc) := by
  obtain ⟨h1, h2, h3⟩ := hp
  refine ⟨List.mem_append_left _ h1, ?_, h3⟩
  unfold outInv at h2 ⊢
  unfold drainAdvertise
  rcases List.mem_append.mp h2 with hl | hr
  · exact List.mem_append_left _ hl
  · exact List.mem_append_right _ (List.mem_append_left _ hr)

theorem sentInv_drainLoop (env : Env) (node : PeerNode) (mf : Int)
    (bloom : Option (Tx → Bool)) (h : Nat) :
    ∀ (fuel n : Nat) (acc : EgressAcc), sentInv h acc →
      sentInv h (drainLoop env node mf bloom fuel n acc) := by
  intro fuel
  induction fuel with
  | zero => exact fun n acc hp => hp
  | succ k ih =>
    intro n acc hp
    rw [drainLoop]
    split
    · exact hp
    · split
      · exact hp
      · rename_i hd rest heq
        have hp1 : sentInv h
            { acc with toSend := (hd :: rest).erase (selectTop (compFunc env) hd rest) } := by
          obtain ⟨h1, h2, h3⟩ := hp
          refine ⟨h1, h2, fun hc => h3 ?_⟩
          rw [heq]
          exact List.mem_of_mem_erase hc
        split
        · exact ih n _ hp1
        · split
          · exact ih n _ hp1
          · split
            · exact ih n _ hp1
            · exact ih (n + 1) _
                (sentInv_flushIfFull node _ h (sentInv_drainAdvertise env _ _ h _ hp1))

theorem sentInv_egressExpire (env : Env) (acc : EgressAcc) (h : Nat)
    (hp : sentInv h acc) : sentInv h (egressExpire env acc) := hp

theorem sentInv_egressDrain (env : Env) (node : PeerNode) (mf : Int)
    (bloom : Option (Tx → Bool)) (h : Nat) (acc : EgressAcc) (hp : sentInv h acc) :
    sentInv h (egressDrain env node mf bloom acc) := by
  unfold egressDrain
  split
  · exact hp
  · exact sentInv_drainLoop env node mf bloom h _ 0 _ (sentInv_egressExpire env acc h hp)

theorem sentInv_egressFinalFlush (node : PeerNode) (acc : EgressAcc) (h : Nat)
    (hp : sentInv h acc) : sentInv h (egressFinalFlush node acc) := by
  obtain ⟨h1, h2, h3⟩ := hp
  unfold egressFinalFlush
  split
  · exact ⟨h1, h2, h3⟩
  · refine ⟨h1, ?_, h3⟩
    unfold outInv at h2 ⊢
    rw [invSent_append]
    rcases List.mem_append.mp h2 with hl | hr
    · exact List.mem_append_left _ (List.mem_append_left _ hl)
    · exact List.mem_append_right _ hr

/-- C6: in the mempool-dump mode of NetRequestTxInventory, each mempool entry
that passes the fee-rate floor and the optional bloom filter ends up in
`haveSentTxHashes` and in the outbound inventory, and its txid is removed
from the pending set `toSendTxHashes` so it is not re-advertised. -/
theorem c6_mempool_dump (env : Env) (node : PeerNode) (mf : Int)
    (bloom : Option (Tx → Bool)) (toSend haveSent : List Nat) (st : MpState)
    (hNodup : toSend.Nodup) (info : TxInfo)
    (hMem : info ∈ env.mempoolInfos)
    (hFee : ¬ info.feePerK < mf)
    (hBloom : bloomFails bloom info.tx = false) :
    info.tx.txid ∈ (netRequestTxInventory env node true mf bloom toSend haveSent st).2.haveSent ∧
    info.tx.txid ∈ outInv (netRequestTxInventory env node true mf bloom toSend haveSent st).2 ∧
    info.tx.txid ∉ (netRequestTxInventory env node true mf bloom toSend haveSent st).2.toSend := by
  obtain ⟨l1, l2, hl⟩ := List.append_of_mem hMem
  unfold netRequestTxInventory
  refine sentInv_egressFinalFlush node _ _ (sentInv_egressDrain env node mf bloom _ _ ?_)
  unfold egressDump
  rw [if_pos rfl, hl, List.foldl_append, List.foldl_cons]
  refine foldl_preserve (fun b a _ hb => sentInv_dumpStep node mf bloom _ b a hb) ?_
  exact sentInv_dumpStep_est node mf bloom _ info hFee hBloom
    (dumpFold_nodup node mf bloom l1 _ hNodup)

theorem c6_witness :
    ([5, 6] : List Nat).Nodup ∧
    (info5.tx.txid ∈ (netRequestTxInventory envD node0 true 0 none [5, 6] [] stEmpty).2.haveSent ∧
     info5.tx.txid ∈ outInv (netRequestTxInventory envD node0 true 0 none [5, 6] [] stEmpty).2 ∧
     info5.tx.txid ∉ (netRequestTxInventory envD node0 true 0 none [5, 6] [] stEmpty).2.toSend) := by
  refine ⟨by decide, ?_⟩
  exact c6_mempool_dump envD node0 0 none [5, 6] [] stEmpty (by decide) info5 (by decide)
    (by decide) rfl

/-- C10: NetReceiveTxData returns true on every execution path — the policy
drop for relay-disabled peers, acceptance, parking as orphan, the
rejected-parents path and validation failure — so its boolean return value
never distinguishes a rejected transaction from an accepted one. -/
theorem c10_recv_always_true (env : Env) (node : PeerNode) (tx : Tx)
    (st : MpState) (fuel : Nat) :
    (netReceiveTxData env node tx st fuel).ret = true := by
  unfold netReceiveTxData
  split
  · rfl
  · split
    · rfl
    · unfold recvCore
      split <;> rfl

/-- C9: during recursive orphan resolution, an orphan whose re-validation
fails with missing inputs is left completely untouched by its loop
iteration: it is not marked for erasure from the orphan pool, its txid is not
inserted into the recent-rejects filter, and its originating peer is not
scored. -/
theorem c9_missing_inputs_orphan_untouched (env : Env) (o : OrphanEntry) (acc : LoopAcc)
    (hAtmp : env.atmp acc.st.mempool o.tx = ATMPResult.missingInputs) :
    processOneOrphan env o acc = acc := by
  unfold processOneOrphan
  split
  · rfl
  · rw [hAtmp]

theorem c9_witness :
    baseEnv.atmp stEmpty.mempool tx0 = ATMPResult.missingInputs ∧
    processOneOrphan baseEnv ⟨tx0, 4⟩
        { workQueue := [], misbehaving := [], eraseQueue := []
          st := stEmpty, removedAcc := [], events := [] } =
      { workQueue := [], misbehaving := [], eraseQueue := []
        st := stEmpty, removedAcc := [], events := [] } :=
  ⟨rfl, c9_missing_inputs_orphan_untouched baseEnv ⟨tx0, 4⟩ _ rfl⟩

/-- C8: NetRequestTxData serves a fetch from the relay cache when present
(witness-stripped iff the peer did not ask for witnesses); otherwise from the
mempool when the entry time is at most the peer's last whole-mempool request
time; otherwise it returns false and sends nothing. -/
theorem c8_serve_fetch (env : Env) (node : PeerNode) (txHash : Nat) (witness : Bool)
    (t : Int) (st : MpState) :
    (∀ tx, lookupRelay st.mapRelay txHash = some tx →
      netRequestTxData env node txHash witness t st =
        (true, [Event.sendTx node.nodeID (!witness) tx.txid])) ∧
    (lookupRelay st.mapRelay txHash = none →
      (∀ info, mempoolInfo env txHash = some info →
        (info.nTime ≤ t →
          netRequestTxData env node txHash witness t st =
            (true, [Event.sendTx node.nodeID (!witness) info.tx.txid])) ∧
        (¬ info.nTime ≤ t →
          netRequestTxData env node txHash witness t st = (false, []))) ∧
      (mempoolInfo env txHash = none →
        netRequestTxData env node txHash witness t st = (false, []))) := by
  refine ⟨?_, fun hnone => ⟨?_, ?_⟩⟩
  · intro tx h
    simp [netRequestTxData, h]
  · intro info h
    constructor
    · intro hle
      simp [netRequestTxData, hnone, h, hle]
    · intro hgt
      simp [netRequestTxData, hnone, h, hgt]
  · intro h
    simp [netRequestTxData, hnone, h]

/-- C1: for a transaction whose validation reports missing inputs, if some
input's parent txid is already in the recent-rejects filter, the transaction
is not added to the orphan pool, its own txid is inserted into the filter,
and no ask-for-transaction request is issued for any parent. -/
theorem c1_rejected_parents (env : Env) (node : PeerNode) (tx : Tx) (st : MpState)
    (fuel : Nat)
    (hGate : gateDrops node env = false)
    (hTip : st.rejectsTip = env.tipHash)
    (hEx : (doesTxExist env st tx.txid).1 = false)
    (hAtmp : env.atmp st.mempool tx = ATMPResult.missingInputs)
    (hRej : ∃ i ∈ tx.vin, i.1 ∈ st.recentRejects) :
    (netReceiveTxData env node tx st fuel).st.orphans = st.orphans ∧
    tx.txid ∈ (netReceiveTxData env node tx st fuel).st.recentRejects ∧
    ∀ p h w, Event.askFor p h w ∉ (netReceiveTxData env node tx st fuel).events := by
  have hsnd : (doesTxExist env st tx.txid).2 = st := doesTxExist_snd_eq env st tx.txid hTip
  have hrun : netReceiveTxData env node tx st fuel =
      finishRecv node tx VState.clean [] false
        { st with recentRejects := insertSet tx.txid st.recentRejects } [] := by
    unfold netReceiveTxData
    rw [if_neg (by simp [hGate]), if_neg (by simp [hEx])]
    unfold recvCore
    rw [hsnd, hAtmp]
    unfold missingInputsBranch
    rw [if_pos hRej]
  rw [hrun]
  refine ⟨rfl, mem_insertSet.mpr (Or.inl rfl), ?_⟩
  intro p h w
  simp [finishRecv, VState.clean]

theorem c1_witness :
    (∃ i ∈ tx0.vin, i.1 ∈ st0.recentRejects) ∧
    (netReceiveTxData baseEnv node0 tx0 st0 5).st.orphans = st0.orphans ∧
    tx0.txid ∈ (netReceiveTxData baseEnv node0 tx0 st0 5).st.recentRejects ∧
    ∀ p h w, Event.askFor p h w ∉ (netReceiveTxData baseEnv node0 tx0 st0 5).events := by
  refine ⟨by decide, ?_⟩
  exact c1_rejected_parents baseEnv node0 tx0 st0 5 (by decide) rfl (by decide) rfl (by decide)

theorem c8_witness :
    lookupRelay stRelay.mapRelay 5 = some txR ∧
    netRequestTxData baseEnv node0 5 true 0 stRelay =
      (true, [Event.sendTx node0.nodeID false txR.txid]) := by
  constructor
  · rfl
  · exact (c8_serve_fetch baseEnv node0 5 true 0 stRelay).1 txR rfl

end SuperBitcoin
